import Mathlib

/-!
# Verification of the `sozo` migration engine

Shallow embedding of `crates/sozo/ops/src/migrate/mod.rs`: the four-phase
migration pipeline (ensure-world, sync-resources, sync-permissions,
initialize-contracts), the call batching it performs, and the artifact
declaration bookkeeping.

Modelling conventions:
* Field elements (`starknet_crypto::Felt`) are natural numbers; none of the
  verified properties depend on the modular arithmetic of the field.
* Compiled class payloads (`FlattenedSierraClass`) are abstract identifiers
  (`Felt`); `flatten` is the identity on that abstraction.
* `ByteArray::from_string` is modelled as the identity on `String` (the calls
  below carry the plain strings).
* The network boundary (declare / deploy / invoke / multicall submissions,
  performed by the `Declarer`, `Deployer` and `Invoker` helpers whose sources
  are outside `src/`) is an oracle `Env` deciding the success of each
  submission; their control flow is modelled from the spec (sections 4.2-4.4).
* A Rust `panic!` / `expect` is modelled by the distinguished error
  `MigrationError.panicked`, which aborts the run like every other error.
-/

/-- Field elements, abstracted to naturals. -/
abbrev Felt := Nat

/-- Dojo resource selectors (numeric identifiers derived from tags). -/
abbrev DojoSelector := Nat

/-- On-chain contract addresses. -/
abbrev Address := Nat

/-- Deterministic string hash standing in for the external hash functions
(selector derivation, salt derivation) that live outside `src/`. -/
def str_hash (s : String) : Nat :=
  s.toList.foldl (fun h c => h * 131 + c.toNat + 1) 5381

/-- The kinds of managed resources (`dojo_world::ResourceType`, restricted to
the kinds the migration dispatches on). -/
inductive ResourceType where
  | namespaceKind
  | contract
  | model
  | event
deriving DecidableEq, Repr

/-- `dojo_world::local::NamespaceLocal`. -/
structure NamespaceLocal where
  name : String
deriving DecidableEq, Repr

/-- `dojo_world::local::ContractLocal`: name, namespace, class hash, casm class
hash and the compiled class payload. -/
structure ContractLocal where
  name : String
  ns : String
  class_hash : Felt
  casm_class_hash : Felt
  class_ : Felt
deriving DecidableEq, Repr

/-- `dojo_world::local::ModelLocal`. -/
structure ModelLocal where
  name : String
  ns : String
  class_hash : Felt
  casm_class_hash : Felt
  class_ : Felt
deriving DecidableEq, Repr

/-- `dojo_world::local::EventLocal`. -/
structure EventLocal where
  name : String
  ns : String
  class_hash : Felt
  casm_class_hash : Felt
  class_ : Felt
deriving DecidableEq, Repr

/-- `dojo_world::local::ResourceLocal`. -/
inductive ResourceLocal where
  | namespaceRes (n : NamespaceLocal)
  | contract (c : ContractLocal)
  | model (m : ModelLocal)
  | event (e : EventLocal)
deriving DecidableEq, Repr

/-- Modelled from the spec: `ContractLocal::dojo_selector` (selector derived
from the namespace-qualified tag, `dojo_types::naming`) is not part of `src/`;
abstracted as a deterministic hash of the tag. -/
def ContractLocal.dojo_selector (c : ContractLocal) : DojoSelector :=
  str_hash (c.ns ++ "-" ++ c.name)

/-- Remote view of a contract; the migration reads its `is_initialized` flag. -/
structure ContractRemote where
  name : String
  ns : String
  is_initialized : Bool
deriving DecidableEq, Repr

/-- Remote view of a model. -/
structure ModelRemote where
  name : String
  ns : String
deriving DecidableEq, Repr

/-- Remote view of an event. -/
structure EventRemote where
  name : String
  ns : String
deriving DecidableEq, Repr

/-- Remote view of a namespace. -/
structure NamespaceRemote where
  name : String
deriving DecidableEq, Repr

/-- `dojo_world::remote::ResourceRemote`. -/
inductive ResourceRemote where
  | namespaceRes (n : NamespaceRemote)
  | contract (c : ContractRemote)
  | model (m : ModelRemote)
  | event (e : EventRemote)
deriving DecidableEq, Repr

/-- `dojo_world::diff::ResourceDiff`: tri-state diff of one resource. -/
inductive ResourceDiff where
  | created (l : ResourceLocal)
  | updated (l : ResourceLocal) (r : ResourceRemote)
  | synced (r : ResourceRemote)
deriving DecidableEq, Repr

def ResourceLocal.resource_type : ResourceLocal → ResourceType
  | .namespaceRes _ => .namespaceKind
  | .contract _ => .contract
  | .model _ => .model
  | .event _ => .event

def ResourceRemote.resource_type : ResourceRemote → ResourceType
  | .namespaceRes _ => .namespaceKind
  | .contract _ => .contract
  | .model _ => .model
  | .event _ => .event

/-- `ResourceDiff::resource_type`: the kind of the diffed resource. -/
def ResourceDiff.resource_type : ResourceDiff → ResourceType
  | .created l => l.resource_type
  | .updated l _ => l.resource_type
  | .synced r => r.resource_type

/-- `ResourceLocal::tag`: namespace-qualified human identifier. -/
def ResourceLocal.tag : ResourceLocal → String
  | .namespaceRes n => n.name
  | .contract c => c.ns ++ "-" ++ c.name
  | .model m => m.ns ++ "-" ++ m.name
  | .event e => e.ns ++ "-" ++ e.name

/-- `ResourceRemote::tag`. -/
def ResourceRemote.tag : ResourceRemote → String
  | .namespaceRes n => n.name
  | .contract c => c.ns ++ "-" ++ c.name
  | .model m => m.ns ++ "-" ++ m.name
  | .event e => e.ns ++ "-" ++ e.name

/-- `ResourceDiff::tag`. -/
def ResourceDiff.tag : ResourceDiff → String
  | .created l => l.tag
  | .updated l _ => l.tag
  | .synced r => r.tag

/-- Modelled from the spec: `dojo_world::diff::WorldStatus` is not part of
`src/`; section 3 of the spec gives its three variants (`NotDeployed`,
`NewVersion(class id, artifact id, artifact payload)`, `Synced`). -/
inductive WorldStatus where
  | notDeployed
  | newVersion (class_hash : Felt) (casm_class_hash : Felt) (class_ : Felt)
  | synced
deriving DecidableEq, Repr

/-- A local permission entry: the target's tag and the grantees, each a
(selector, tag) pair still to be resolved to an address. -/
structure LocalPermission where
  target_tag : String
  grantees : List (DojoSelector × String)
deriving DecidableEq, Repr

/-- `dojo_world::diff::WorldDiff`.  The permission accessors
(`get_remote_writers`, `get_remote_owners`) and the deterministic address map
(`get_contracts_addresses`) are methods outside `src/`; modelled from the spec
as already-materialized data carried by the diff. -/
structure WorldDiff where
  world_status : WorldStatus
  namespaces : List DojoSelector
  resources : List (DojoSelector × ResourceDiff)
  remote_writers : List (DojoSelector × List Address)
  remote_owners : List (DojoSelector × List Address)
  contract_addresses : List (DojoSelector × Address)
deriving DecidableEq, Repr

/-- `[migration]` section of the profile configuration. -/
structure MigrationConfig where
  disable_multicall : Bool
deriving DecidableEq, Repr

/-- `[world]` section of the profile configuration. -/
structure WorldConfig where
  seed : String
deriving DecidableEq, Repr

/-- `dojo_world::config::ProfileConfig`.  The local permission accessors
(`get_local_writers`, `get_local_owners`) are methods outside `src/`;
modelled from the spec as already-materialized data. -/
structure ProfileConfig where
  world : WorldConfig
  migration : Option MigrationConfig
  init_call_args : Option (List (String × List String))
  local_writers : List (DojoSelector × LocalPermission)
  local_owners : List (DojoSelector × LocalPermission)
deriving DecidableEq, Repr

/-- The `Migration` orchestrator state: the diff, the world address and the
profile configuration (the account and transaction config act only at the
network boundary, which the `Env` oracle models). -/
structure Migration where
  diff : WorldDiff
  world_address : Felt
  profile_config : ProfileConfig
deriving DecidableEq, Repr

/-- The abstract calls emitted against the world contract.  The revocation
entry points exist on the world contract interface; the migration never emits
them. -/
inductive Call where
  | registerNamespace (name : String)
  | registerContract (selector : DojoSelector) (ns : String) (class_hash : Felt)
  | upgradeContract (ns : String) (class_hash : Felt)
  | registerModel (ns : String) (class_hash : Felt)
  | upgradeModel (ns : String) (class_hash : Felt)
  | registerEvent (ns : String) (class_hash : Felt)
  | upgradeEvent (ns : String) (class_hash : Felt)
  | grantWriter (target : DojoSelector) (grantee : Address)
  | grantOwner (target : DojoSelector) (grantee : Address)
  | revokeWriter (target : DojoSelector) (grantee : Address)
  | revokeOwner (target : DojoSelector) (grantee : Address)
  | initContract (selector : DojoSelector) (args : List Felt)
deriving DecidableEq, Repr

/-- Network-level events of one migration run, in execution order. -/
inductive Event where
  | declared (casm_class_hash : Felt) (class_ : Felt)
  | deployed (class_hash : Felt) (salt : Felt) (ctor_args : List Felt) (ud : Felt)
  | multicalled (calls : List Call)
  | invoked (c : Call)
deriving DecidableEq, Repr

/-- `sozo_ops::migrate::error::MigrationError` (source outside `src/`),
restricted to the variants `mod.rs` can produce; `panicked` models a Rust
panic (`expect`). -/
inductive MigrationError where
  | orphanSelectorAddress (tag : String)
  | feltFromStr (s : String)
  | declareFailed (casm_class_hash : Felt)
  | deployFailed
  | multicallFailed (calls : List Call)
  | invokeFailed (c : Call)
  | panicked (msg : String)
deriving DecidableEq, Repr

/-- Oracle for the network boundary: decides whether each submitted operation
succeeds (an "already declared" response counts as success, per spec 4.3). -/
structure Env where
  declare_ok : Felt → Felt → Bool
  deploy_ok : Bool
  multicall_ok : List Call → Bool
  invoke_ok : Call → Bool

/-- Decimal digit value of a character, `none` for a non-digit. -/
def digit_of_char (c : Char) : Option Nat :=
  if 48 ≤ c.toNat ∧ c.toNat ≤ 57 then some (c.toNat - 48) else none

/-- Decimal accumulation over a character list, failing on any non-digit. -/
def digits_to_nat (acc : Nat) : List Char → Option Nat
  | [] => some acc
  | c :: rest =>
    match digit_of_char c with
    | none => none
    | some d => digits_to_nat (acc * 10 + d) rest

/-- Models the external `Felt::from_str` used for init-call arguments,
abstracted to decimal parsing; `none` on malformed input. -/
def felt_from_str (s : String) : Option Felt :=
  match s.toList with
  | [] => none
  | cs => digits_to_nat 0 cs

/-- Modelled from the spec: `dojo_world::utils::world_salt` (not in `src/`)
derives a deterministic salt from the configured seed. -/
def world_salt (seed : String) : Felt := str_hash seed

/-- `class.flatten()`: identity on the abstract payload. -/
def flatten (class_ : Felt) : Felt := class_

/-! ## Invoker, Declarer, Deployer (run behavior modelled from spec 4.2-4.4) -/

/-- Modelled from the spec: `Invoker::multicall` (source outside `src/`)
submits all accumulated calls as one atomic transaction; empty accumulation is
a trivial success; failure commits none of the calls. -/
def invoker_multicall (env : Env) (calls : List Call) :
    List Event × Option MigrationError :=
  match calls with
  | [] => ([], none)
  | _ =>
    if env.multicall_ok calls then ([Event.multicalled calls], none)
    else ([], some (MigrationError.multicallFailed calls))

/-- Modelled from the spec: `Invoker::invoke_all_sequentially` (source outside
`src/`) submits each call as its own transaction in insertion order; the first
failure aborts the remaining calls, the preceding ones stay committed. -/
def invoker_invoke_all_sequentially (env : Env) :
    List Call → List Event × Option MigrationError
  | [] => ([], none)
  | c :: rest =>
    if env.invoke_ok c then
      let r := invoker_invoke_all_sequentially env rest
      (Event.invoked c :: r.1, r.2)
    else ([], some (MigrationError.invokeFailed c))

/-- The execution step shared by phases 2-4: multicall when enabled, otherwise
sequential invocation. -/
def exec_invoker (env : Env) (do_multi : Bool) (calls : List Call) :
    List Event × Option MigrationError :=
  if do_multi then invoker_multicall env calls
  else invoker_invoke_all_sequentially env calls

/-- Modelled from the spec: `Declarer::add_class` (source outside `src/`) is
an idempotent insertion keyed by the casm class hash; re-insertion with a
present key is ignored. -/
def declarer_add_class (classes : List (Felt × Felt)) (casm_class_hash : Felt)
    (class_ : Felt) : List (Felt × Felt) :=
  match classes.lookup casm_class_hash with
  | some _ => classes
  | none => classes ++ [(casm_class_hash, class_)]

/-- Folds a batch of `(casm hash, payload)` additions into the declarer. -/
def declarer_add_all (classes : List (Felt × Felt)) :
    List (Felt × Felt) → List (Felt × Felt)
  | [] => classes
  | k :: rest => declarer_add_all (declarer_add_class classes k.1 k.2) rest

/-- Modelled from the spec: `Declarer::declare_all` (source outside `src/`)
declares each unique pending artifact once; a failure aborts the remaining
declarations, the preceding ones stay committed. -/
def declarer_declare_all (env : Env) :
    List (Felt × Felt) → List Event × Option MigrationError
  | [] => ([], none)
  | k :: rest =>
    if env.declare_ok k.1 k.2 then
      let r := declarer_declare_all env rest
      (Event.declared k.1 k.2 :: r.1, r.2)
    else ([], some (MigrationError.declareFailed k.1))

/-! ## The migration phases (`impl Migration` in `mod.rs`) -/

/-- `Migration::do_multicall`: multicall is enabled by default and disabled
only by an explicit `disable_multicall` in the `[migration]` section. -/
def Migration.do_multicall (m : Migration) : Bool :=
  match m.profile_config.migration with
  | none => true
  | some mc => !mc.disable_multicall

/-- `Migration::contracts_getcalls`: calls added to the invoker and classes
added to the declarer for one contract diff. -/
def contracts_getcalls (resource : ResourceDiff) :
    List Call × List (Felt × Felt) :=
  let created_part : List Call × List (Felt × Felt) :=
    match resource with
    | .created (.contract c) =>
      ([Call.registerContract c.dojo_selector c.ns c.class_hash],
       [(c.casm_class_hash, flatten c.class_)])
    | _ => ([], [])
  let updated_part : List Call × List (Felt × Felt) :=
    match resource with
    | .updated (.contract cl) (.contract _) =>
      ([Call.upgradeContract cl.ns cl.class_hash],
       [(cl.casm_class_hash, flatten cl.class_)])
    | _ => ([], [])
  (created_part.1 ++ updated_part.1, created_part.2 ++ updated_part.2)

/-- `Migration::models_getcalls`. -/
def models_getcalls (resource : ResourceDiff) :
    List Call × List (Felt × Felt) :=
  let created_part : List Call × List (Felt × Felt) :=
    match resource with
    | .created (.model mo) =>
      ([Call.registerModel mo.ns mo.class_hash],
       [(mo.casm_class_hash, flatten mo.class_)])
    | _ => ([], [])
  let updated_part : List Call × List (Felt × Felt) :=
    match resource with
    | .updated (.model ml) (.model _) =>
      ([Call.upgradeModel ml.ns ml.class_hash],
       [(ml.casm_class_hash, flatten ml.class_)])
    | _ => ([], [])
  (created_part.1 ++ updated_part.1, created_part.2 ++ updated_part.2)

/-- `Migration::events_getcalls`. -/
def events_getcalls (resource : ResourceDiff) :
    List Call × List (Felt × Felt) :=
  let created_part : List Call × List (Felt × Felt) :=
    match resource with
    | .created (.event ev) =>
      ([Call.registerEvent ev.ns ev.class_hash],
       [(ev.casm_class_hash, flatten ev.class_)])
    | _ => ([], [])
  let updated_part : List Call × List (Felt × Felt) :=
    match resource with
    | .updated (.event el) (.event _) =>
      ([Call.upgradeEvent el.ns el.class_hash],
       [(el.casm_class_hash, flatten el.class_)])
    | _ => ([], [])
  (created_part.1 ++ updated_part.1, created_part.2 ++ updated_part.2)

/-- The dispatch of the `sync_resources` loop body on the resource kind
(namespaces and other kinds fall through to the `continue` branch). -/
def resource_getcalls (resource : ResourceDiff) :
    List Call × List (Felt × Felt) :=
  match resource.resource_type with
  | .contract => contracts_getcalls resource
  | .model => models_getcalls resource
  | .event => events_getcalls resource
  | _ => ([], [])

/-- The `sync_resources` loop over the resource map: invoker calls are
appended in iteration order, classes are folded into the declarer. -/
def collect_go (resources : List (DojoSelector × ResourceDiff))
    (acc : List Call × List (Felt × Felt)) :
    List Call × List (Felt × Felt) :=
  match resources with
  | [] => acc
  | p :: rest =>
    let pc := resource_getcalls p.2
    collect_go rest (acc.1 ++ pc.1, declarer_add_all acc.2 pc.2)

/-- All register/upgrade calls and declarer state produced by the resource
loop of `sync_resources`. -/
def collect_resource_calls (resources : List (DojoSelector × ResourceDiff)) :
    List Call × List (Felt × Felt) :=
  collect_go resources ([], [])

/-- The `if let` body of `Migration::namespaces_getcalls`: a registration call
for a `Created` namespace, nothing for any other diff variant. -/
def ns_call_of (r : ResourceDiff) : List Call :=
  match r with
  | .created (.namespaceRes n) => [Call.registerNamespace n.name]
  | _ => []

/-- The body of `Migration::namespaces_getcalls`: walk the namespace selector
set, look each up in the resource map (the `expect` models as a panic), and
emit a registration call for every `Created` namespace. -/
def namespace_calls (resources : List (DojoSelector × ResourceDiff)) :
    List DojoSelector → Except MigrationError (List Call)
  | [] => .ok []
  | s :: rest =>
    match resources.lookup s with
    | none => .error (MigrationError.panicked "Namespace not found in diff.")
    | some r =>
      match namespace_calls resources rest with
      | .error e => .error e
      | .ok cs => .ok (ns_call_of r ++ cs)

/-- `Migration::namespaces_getcalls`. -/
def Migration.namespaces_getcalls (m : Migration) :
    Except MigrationError (List Call) :=
  namespace_calls m.diff.resources m.diff.namespaces

/-- The full invoker batch of phase 2: namespace registrations first, then the
register/upgrade calls of the resource loop. -/
def Migration.phase2_batch (m : Migration) : Except MigrationError (List Call) :=
  match m.namespaces_getcalls with
  | .error e => .error e
  | .ok ns_calls => .ok (ns_calls ++ (collect_resource_calls m.diff.resources).1)

/-- The declarer state accumulated by phase 2. -/
def Migration.phase2_classes (m : Migration) : List (Felt × Felt) :=
  (collect_resource_calls m.diff.resources).2

/-- `Migration::sync_resources`: collect all calls and classes, flush the
declarer, then execute the batch. -/
def Migration.sync_resources (env : Env) (m : Migration) :
    List Event × Option MigrationError :=
  match m.phase2_batch with
  | .error e => ([], some e)
  | .ok calls =>
    match (declarer_declare_all env m.phase2_classes).2 with
    | some e => ((declarer_declare_all env m.phase2_classes).1, some e)
    | none =>
      ((declarer_declare_all env m.phase2_classes).1 ++
         (exec_invoker env m.do_multicall calls).1,
       (exec_invoker env m.do_multicall calls).2)

/-- The inner grantee loop of `Migration::sync_permissions`: resolve each
grantee selector through the deterministic address map (an absent entry is the
fatal `OrphanSelectorAddress` error) and emit a grant call when the resolved
address is missing from the remote grant set of the target. -/
def grantee_calls (addrs : List (DojoSelector × Address))
    (remote : List (DojoSelector × List Address)) (target : DojoSelector)
    (mk : DojoSelector → Address → Call) :
    List (DojoSelector × String) → Except MigrationError (List Call)
  | [] => .ok []
  | g :: rest =>
    match addrs.lookup g.1 with
    | none => .error (MigrationError.orphanSelectorAddress g.2)
    | some a =>
      match grantee_calls addrs remote target mk rest with
      | .error e => .error e
      | .ok cs =>
        .ok ((if a ∈ ((remote.lookup target).getD []) then []
              else [mk target a]) ++ cs)

/-- The outer loop of `Migration::sync_permissions` over one local permission
map (writers or owners). -/
def local_grants_calls (addrs : List (DojoSelector × Address))
    (remote : List (DojoSelector × List Address))
    (mk : DojoSelector → Address → Call) :
    List (DojoSelector × LocalPermission) → Except MigrationError (List Call)
  | [] => .ok []
  | tp :: rest =>
    match grantee_calls addrs remote tp.1 mk tp.2.grantees with
    | .error e => .error e
    | .ok cs =>
      match local_grants_calls addrs remote mk rest with
      | .error e => .error e
      | .ok cs' => .ok (cs ++ cs')

/-- `Migration::sync_permissions`: writer grants are collected first, then
owner grants, and the combined batch is executed at the end of the phase. -/
def Migration.sync_permissions (env : Env) (m : Migration) :
    List Event × Option MigrationError :=
  match local_grants_calls m.diff.contract_addresses m.diff.remote_writers
      Call.grantWriter m.profile_config.local_writers with
  | .error e => ([], some e)
  | .ok wcalls =>
    match local_grants_calls m.diff.contract_addresses m.diff.remote_owners
        Call.grantOwner m.profile_config.local_owners with
    | .error e => ([], some e)
    | .ok ocalls => exec_invoker env m.do_multicall (wcalls ++ ocalls)

/-- Parsing of the configured init-call arguments (`Felt::from_str(arg)?`):
the first malformed argument aborts with a `feltFromStr` error naming it. -/
def parse_args : List String → Except MigrationError (List Felt)
  | [] => .ok []
  | a :: rest =>
    match felt_from_str a with
    | none => .error (MigrationError.feltFromStr a)
    | some f =>
      match parse_args rest with
      | .error e => .error e
      | .ok fs => .ok (f :: fs)

/-- The body of the `initialize_contracts` loop for one resource: determine
eligibility from the diff variant and the remote `is_initialized` flag, fetch
the configured arguments by tag, and emit the init call. -/
def init_call_for (cfg : List (String × List String)) (selector : DojoSelector)
    (resource : ResourceDiff) : Except MigrationError (List Call) :=
  if resource.resource_type = ResourceType.contract then
    let tag := resource.tag
    let step : Bool × Option (List String) :=
      match resource with
      | .created (.contract _) => (true, cfg.lookup tag)
      | .updated _ (.contract c) => (!c.is_initialized, cfg.lookup tag)
      | .synced (.contract c) => (!c.is_initialized, cfg.lookup tag)
      | _ => (false, none)
    if step.1 then
      match step.2 with
      | some args =>
        match parse_args args with
        | .error e => .error e
        | .ok fs => .ok [Call.initContract selector fs]
      | none => .ok [Call.initContract selector []]
    else .ok []
  else .ok []

/-- The init calls accumulated over the whole resource map. -/
def init_calls (cfg : List (String × List String)) :
    List (DojoSelector × ResourceDiff) → Except MigrationError (List Call)
  | [] => .ok []
  | p :: rest =>
    match init_call_for cfg p.1 p.2 with
    | .error e => .error e
    | .ok cs =>
      match init_calls cfg rest with
      | .error e => .error e
      | .ok cs' => .ok (cs ++ cs')

/-- The `init_call_args` configuration used by `initialize_contracts` (absent
section behaves as an empty map). -/
def Migration.init_call_args (m : Migration) : List (String × List String) :=
  match m.profile_config.init_call_args with
  | some cfg => cfg
  | none => []

/-- `Migration::initialize_contracts`. -/
def Migration.initialize_contracts (env : Env) (m : Migration) :
    List Event × Option MigrationError :=
  match init_calls m.init_call_args m.diff.resources with
  | .error e => ([], some e)
  | .ok calls => exec_invoker env m.do_multicall calls

/-- `Migration::ensure_world`: only a `NewVersion` world status triggers work;
the world artifact is declared (synchronously awaited) and then the instance
is deployed through the factory with the seed-derived salt. -/
def Migration.ensure_world (env : Env) (m : Migration) :
    List Event × Option MigrationError :=
  match m.diff.world_status with
  | .newVersion class_hash casm_class_hash class_ =>
    if env.declare_ok casm_class_hash (flatten class_) then
      if env.deploy_ok then
        ([Event.declared casm_class_hash (flatten class_),
          Event.deployed class_hash (world_salt m.profile_config.world.seed)
            [class_hash] 0], none)
      else ([Event.declared casm_class_hash (flatten class_)],
            some MigrationError.deployFailed)
    else ([], some (MigrationError.declareFailed casm_class_hash))
  | _ => ([], none)

/-- `Migration::migrate`: the four phases in strict order, each one executed
to completion before the next starts, any error aborting the run. -/
def Migration.migrate (env : Env) (m : Migration) :
    List Event × Option MigrationError :=
  match (m.ensure_world env).2 with
  | some e => ((m.ensure_world env).1, some e)
  | none =>
    match (m.sync_resources env).2 with
    | some e => ((m.ensure_world env).1 ++ (m.sync_resources env).1, some e)
    | none =>
      match (m.sync_permissions env).2 with
      | some e =>
        ((m.ensure_world env).1 ++ (m.sync_resources env).1 ++
           (m.sync_permissions env).1, some e)
      | none =>
        ((m.ensure_world env).1 ++ (m.sync_resources env).1 ++
           (m.sync_permissions env).1 ++ (m.initialize_contracts env).1,
         (m.initialize_contracts env).2)

/-! ## Helper classifiers and sample inputs -/

/-- Whether a call is one of the two revocation entry points (the migration
must never emit them). -/
def Call.is_revoke : Call → Bool
  | .revokeWriter _ _ => true
  | .revokeOwner _ _ => true
  | _ => false

/-- Whether an executed event carries a revocation call. -/
def Event.has_revoke : Event → Bool
  | .multicalled cs => cs.any Call.is_revoke
  | .invoked c => c.is_revoke
  | _ => false

/-- The register call a `Created` non-namespace resource emits (none for a
namespace, which phase 2 handles separately). -/
def register_call_of : ResourceLocal → Option Call
  | .namespaceRes _ => none
  | .contract c => some (Call.registerContract c.dojo_selector c.ns c.class_hash)
  | .model mo => some (Call.registerModel mo.ns mo.class_hash)
  | .event ev => some (Call.registerEvent ev.ns ev.class_hash)

/-- The upgrade call an `Updated` non-namespace resource emits. -/
def upgrade_call_of : ResourceLocal → Option Call
  | .namespaceRes _ => none
  | .contract c => some (Call.upgradeContract c.ns c.class_hash)
  | .model mo => some (Call.upgradeModel mo.ns mo.class_hash)
  | .event ev => some (Call.upgradeEvent ev.ns ev.class_hash)

/-- The pending artifact a non-namespace resource contributes to the
declarer. -/
def local_artifact : ResourceLocal → Option (Felt × Felt)
  | .namespaceRes _ => none
  | .contract c => some (c.casm_class_hash, flatten c.class_)
  | .model mo => some (mo.casm_class_hash, flatten mo.class_)
  | .event ev => some (ev.casm_class_hash, flatten ev.class_)

/-- The init call emitted for one eligible contract: configured arguments
looked up by tag (absent entry behaves as the empty list), each parsed as a
field element. -/
def eligible_init_call (cfg : List (String × List String))
    (selector : DojoSelector) (tag : String) :
    Except MigrationError (List Call) :=
  match parse_args ((cfg.lookup tag).getD []) with
  | .error e => .error e
  | .ok fs => .ok [Call.initContract selector fs]

/-- Oracle under which every network submission succeeds. -/
def env_ok : Env := ⟨fun _ _ => true, true, fun _ => true, fun _ => true⟩

/-- A sample local contract. -/
def sample_contract : ContractLocal := ⟨"actions", "ns", 11, 12, 13⟩

/-- A sample migration: one created namespace, one created contract in it, a
local writer grant on that contract and no remote grants. -/
def sample_migration : Migration :=
  { diff :=
      { world_status := WorldStatus.newVersion 7 8 9
        namespaces := [1]
        resources := [(1, ResourceDiff.created (ResourceLocal.namespaceRes ⟨"ns"⟩)),
                      (2, ResourceDiff.created (ResourceLocal.contract sample_contract))]
        remote_writers := []
        remote_owners := []
        contract_addresses := [(2, 42)] }
    world_address := 5
    profile_config :=
      { world := ⟨"seed"⟩
        migration := none
        init_call_args := none
        local_writers := [(2, ⟨"ns-actions", [(2, "ns-actions")]⟩)]
        local_owners := [] } }

/-- A migration with an empty diff and empty configuration. -/
def m_empty : Migration :=
  { diff :=
      { world_status := WorldStatus.synced
        namespaces := []
        resources := []
        remote_writers := []
        remote_owners := []
        contract_addresses := [] }
    world_address := 0
    profile_config :=
      { world := ⟨"s"⟩
        migration := none
        init_call_args := none
        local_writers := []
        local_owners := [] } }

/-- An otherwise empty migration whose configuration grants a writer
permission to a grantee selector absent from the address map. -/
def m_orphan : Migration :=
  { m_empty with
    profile_config :=
      { m_empty.profile_config with
        local_writers := [(1, ⟨"ns-a", [(9, "ns-ghost")]⟩)] } }

/-- An otherwise empty migration whose world status is `NotDeployed`. -/
def m_not_deployed : Migration :=
  { m_empty with
    diff := { m_empty.diff with world_status := WorldStatus.notDeployed } }

/-- A migration with one created contract whose configured init-call argument
does not parse as a field element. -/
def m_badargs : Migration :=
  { m_empty with
    diff := { m_empty.diff with
      resources := [(3, ResourceDiff.created
        (ResourceLocal.contract ⟨"b", "a", 1, 2, 3⟩))] }
    profile_config := { m_empty.profile_config with
      init_call_args := some [("a-b", ["zzz"])] } }

/-! ## Association list lemmas -/

theorem lookup_mem_pair {α β : Type} [BEq α] [LawfulBEq α]
    {l : List (α × β)} {k : α} {v : β} (h : l.lookup k = some v) :
    (k, v) ∈ l := by
  induction l with
  | nil => simp [List.lookup] at h
  | cons p rest ih =>
    obtain ⟨a, b⟩ := p
    rw [List.lookup] at h
    cases hka : k == a with
    | true =>
      rw [hka] at h
      simp only [Option.some.injEq] at h
      subst h
      exact (eq_of_beq hka) ▸ List.mem_cons_self _ _
    | false =>
      rw [hka] at h
      exact List.mem_cons_of_mem _ (ih h)

theorem lookup_append_of_isSome {α β : Type} [BEq α]
    {l1 l2 : List (α × β)} {k : α} (h : (l1.lookup k).isSome) :
    (l1 ++ l2).lookup k = l1.lookup k := by
  induction l1 with
  | nil => simp [List.lookup] at h
  | cons p rest ih =>
    obtain ⟨a, b⟩ := p
    rw [List.cons_append, List.lookup, List.lookup]
    cases hka : k == a with
    | true => rfl
    | false =>
      rw [List.lookup, hka] at h
      exact ih h

theorem lookup_append_of_none {α β : Type} [BEq α]
    {l1 l2 : List (α × β)} {k : α} (h : l1.lookup k = none) :
    (l1 ++ l2).lookup k = l2.lookup k := by
  induction l1 with
  | nil => rfl
  | cons p rest ih =>
    obtain ⟨a, b⟩ := p
    rw [List.lookup, List.cons_append, List.lookup] at *
    cases hka : k == a with
    | true => rw [hka] at h; cases h
    | false => rw [hka] at h; exact ih h

/-! ## Declarer lemmas -/

theorem add_class_lookup_isSome {cl : List (Felt × Felt)} {k a b : Felt}
    (h : (cl.lookup k).isSome) :
    ((declarer_add_class cl a b).lookup k).isSome := by
  unfold declarer_add_class
  cases hl : cl.lookup a with
  | some v => exact h
  | none => rw [lookup_append_of_isSome h]; exact h

theorem add_class_lookup_self {cl : List (Felt × Felt)} {a b : Felt} :
    ((declarer_add_class cl a b).lookup a).isSome := by
  unfold declarer_add_class
  cases hl : cl.lookup a with
  | some v => simp [hl]
  | none => rw [lookup_append_of_none hl]; simp [List.lookup]

theorem add_all_lookup_isSome_mono {ks : List (Felt × Felt)}
    {cl : List (Felt × Felt)} {k : Felt} (h : (cl.lookup k).isSome) :
    ((declarer_add_all cl ks).lookup k).isSome := by
  induction ks generalizing cl with
  | nil => simpa [declarer_add_all] using h
  | cons kk rest ih =>
    rw [declarer_add_all]
    exact ih (add_class_lookup_isSome h)

theorem add_all_lookup_isSome_of_mem {ks : List (Felt × Felt)}
    {cl : List (Felt × Felt)} {kv : Felt × Felt} (h : kv ∈ ks) :
    ((declarer_add_all cl ks).lookup kv.1).isSome := by
  induction ks generalizing cl with
  | nil => cases h
  | cons kk rest ih =>
    rw [declarer_add_all]
    cases List.mem_cons.mp h with
    | inl he => subst he; exact add_all_lookup_isSome_mono add_class_lookup_self
    | inr he => exact ih he

theorem mem_declarer_declare_all {env : Env} {cl : List (Felt × Felt)}
    {e : Event} (h : e ∈ (declarer_declare_all env cl).1) :
    ∃ kv ∈ cl, e = Event.declared kv.1 kv.2 := by
  induction cl with
  | nil => simp [declarer_declare_all] at h
  | cons k rest ih =>
    rw [declarer_declare_all] at h
    by_cases hok : env.declare_ok k.1 k.2
    · simp only [hok, if_true, List.mem_cons] at h
      cases h with
      | inl he => exact ⟨k, List.mem_cons_self _ _, he⟩
      | inr he =>
        obtain ⟨kv, hkv, hee⟩ := ih he
        exact ⟨kv, List.mem_cons_of_mem _ hkv, hee⟩
    · simp [hok] at h

theorem declarer_declare_all_complete {env : Env} {cl : List (Felt × Felt)}
    (h : (declarer_declare_all env cl).2 = none) :
    ∀ kv ∈ cl, Event.declared kv.1 kv.2 ∈ (declarer_declare_all env cl).1 := by
  induction cl with
  | nil => intro kv hkv; cases hkv
  | cons k rest ih =>
    intro kv hkv
    rw [declarer_declare_all] at h ⊢
    by_cases hok : env.declare_ok k.1 k.2
    · simp only [hok, if_true] at h ⊢
      cases List.mem_cons.mp hkv with
      | inl he => subst he; exact List.mem_cons_self _ _
      | inr he => exact List.mem_cons_of_mem _ (ih h kv he)
    · simp [hok] at h

/-! ## Resource collection lemmas -/

theorem resource_getcalls_shape (r : ResourceDiff) :
    resource_getcalls r = ([], []) ∨
    ∃ c kv, resource_getcalls r = ([c], [kv]) := by
  cases r with
  | created l =>
    cases l with
    | namespaceRes n => exact Or.inl rfl
    | contract c => exact Or.inr ⟨_, _, rfl⟩
    | model mo => exact Or.inr ⟨_, _, rfl⟩
    | event ev => exact Or.inr ⟨_, _, rfl⟩
  | updated l rr =>
    cases l with
    | namespaceRes n => exact Or.inl rfl
    | contract c =>
      cases rr with
      | contract c2 => exact Or.inr ⟨_, _, rfl⟩
      | namespaceRes n2 => exact Or.inl rfl
      | model m2 => exact Or.inl rfl
      | event e2 => exact Or.inl rfl
    | model mo =>
      cases rr with
      | model m2 => exact Or.inr ⟨_, _, rfl⟩
      | namespaceRes n2 => exact Or.inl rfl
      | contract c2 => exact Or.inl rfl
      | event e2 => exact Or.inl rfl
    | event ev =>
      cases rr with
      | event e2 => exact Or.inr ⟨_, _, rfl⟩
      | namespaceRes n2 => exact Or.inl rfl
      | contract c2 => exact Or.inl rfl
      | model m2 => exact Or.inl rfl
  | synced rr =>
    cases rr with
    | namespaceRes n => exact Or.inl rfl
    | contract c => exact Or.inl rfl
    | model mo => exact Or.inl rfl
    | event ev => exact Or.inl rfl

theorem resource_getcalls_no_register_namespace {r : ResourceDiff} {c : Call}
    (h : c ∈ (resource_getcalls r).1) : ∀ nm, c ≠ Call.registerNamespace nm := by
  cases r with
  | created l => cases l <;> simp_all [resource_getcalls, ResourceDiff.resource_type,
      ResourceLocal.resource_type, contracts_getcalls, models_getcalls, events_getcalls]
  | updated l rr => cases l <;> cases rr <;> simp_all [resource_getcalls,
      ResourceDiff.resource_type, ResourceLocal.resource_type, ResourceRemote.resource_type,
      contracts_getcalls, models_getcalls, events_getcalls]
  | synced rr => cases rr <;> simp_all [resource_getcalls, ResourceDiff.resource_type,
      ResourceRemote.resource_type, contracts_getcalls, models_getcalls, events_getcalls]

theorem collect_go_snd_mono {rs : List (DojoSelector × ResourceDiff)}
    {acc : List Call × List (Felt × Felt)} {k : Felt}
    (h : (acc.2.lookup k).isSome) :
    (((collect_go rs acc).2).lookup k).isSome := by
  induction rs generalizing acc with
  | nil => simpa [collect_go] using h
  | cons q rest ih =>
    rw [collect_go]
    exact ih (add_all_lookup_isSome_mono h)

theorem collect_go_snd_of_mem {rs : List (DojoSelector × ResourceDiff)}
    {p : DojoSelector × ResourceDiff} (hp : p ∈ rs)
    {kv : Felt × Felt} (hk : kv ∈ (resource_getcalls p.2).2)
    {acc : List Call × List (Felt × Felt)} :
    (((collect_go rs acc).2).lookup kv.1).isSome := by
  induction rs generalizing acc with
  | nil => cases hp
  | cons q rest ih =>
    rw [collect_go]
    cases List.mem_cons.mp hp with
    | inl he =>
      subst he
      exact collect_go_snd_mono (add_all_lookup_isSome_of_mem hk)
    | inr he => exact ih he

theorem collect_go_fst_mem {rs : List (DojoSelector × ResourceDiff)}
    {acc : List Call × List (Felt × Felt)} {c : Call}
    (h : c ∈ (collect_go rs acc).1) :
    c ∈ acc.1 ∨ ∃ p ∈ rs, c ∈ (resource_getcalls p.2).1 := by
  induction rs generalizing acc with
  | nil => exact Or.inl (by simpa [collect_go] using h)
  | cons q rest ih =>
    rw [collect_go] at h
    cases ih h with
    | inl h1 =>
      cases List.mem_append.mp h1 with
      | inl h2 => exact Or.inl h2
      | inr h2 => exact Or.inr ⟨q, List.mem_cons_self _ _, h2⟩
    | inr h1 =>
      obtain ⟨p, hp, hc⟩ := h1
      exact Or.inr ⟨p, List.mem_cons_of_mem _ hp, hc⟩

/-! ## Invoker lemmas -/

theorem mem_invoker_multicall {env : Env} {cs : List Call} {e : Event}
    (h : e ∈ (invoker_multicall env cs).1) : e = Event.multicalled cs := by
  unfold invoker_multicall at h
  cases cs with
  | nil => simp at h
  | cons c rest =>
    by_cases hok : env.multicall_ok (c :: rest) <;> simp [hok] at h
    exact h

theorem mem_invoke_seq {env : Env} {cs : List Call} {e : Event}
    (h : e ∈ (invoker_invoke_all_sequentially env cs).1) :
    ∃ c ∈ cs, e = Event.invoked c := by
  induction cs with
  | nil => simp [invoker_invoke_all_sequentially] at h
  | cons c rest ih =>
    rw [invoker_invoke_all_sequentially] at h
    by_cases hok : env.invoke_ok c
    · simp only [hok, if_true, List.mem_cons] at h
      cases h with
      | inl he => exact ⟨c, List.mem_cons_self _ _, he⟩
      | inr he =>
        obtain ⟨c2, hc2, hee⟩ := ih he
        exact ⟨c2, List.mem_cons_of_mem _ hc2, hee⟩
    · simp [hok] at h

theorem mem_exec_invoker {env : Env} {b : Bool} {cs : List Call} {e : Event}
    (h : e ∈ (exec_invoker env b cs).1) :
    e = Event.multicalled cs ∨ ∃ c ∈ cs, e = Event.invoked c := by
  unfold exec_invoker at h
  cases b with
  | true => exact Or.inl (mem_invoker_multicall (by simpa using h))
  | false => exact Or.inr (mem_invoke_seq (by simpa using h))

/-! ## Namespace call lemmas -/

theorem mem_ns_call_of {r : ResourceDiff} {c : Call} (h : c ∈ ns_call_of r) :
    ∃ nm, c = Call.registerNamespace nm ∧
      r = ResourceDiff.created (ResourceLocal.namespaceRes ⟨nm⟩) := by
  cases r with
  | created l =>
    cases l with
    | namespaceRes n =>
      simp [ns_call_of] at h
      exact ⟨n.name, h, rfl⟩
    | contract c2 => simp [ns_call_of] at h
    | model m2 => simp [ns_call_of] at h
    | event e2 => simp [ns_call_of] at h
  | updated l rr => simp [ns_call_of] at h
  | synced rr => simp [ns_call_of] at h

theorem namespace_calls_mem_iff {res : List (DojoSelector × ResourceDiff)}
    {ns : List DojoSelector} {cs : List Call}
    (h : namespace_calls res ns = Except.ok cs) (nm : String) :
    Call.registerNamespace nm ∈ cs ↔
      ∃ s ∈ ns, res.lookup s =
        some (ResourceDiff.created (ResourceLocal.namespaceRes ⟨nm⟩)) := by
  induction ns generalizing cs with
  | nil =>
    simp only [namespace_calls, Except.ok.injEq] at h
    subst h
    simp
  | cons s rest ih =>
    rw [namespace_calls] at h
    cases hl : res.lookup s with
    | none => rw [hl] at h; cases h
    | some r =>
      rw [hl] at h
      cases hr : namespace_calls res rest with
      | error e => rw [hr] at h; cases h
      | ok cs2 =>
        rw [hr] at h
        simp only [Except.ok.injEq] at h
        subst h
        rw [List.mem_append]
        constructor
        · intro hmem
          cases hmem with
          | inl hm =>
            obtain ⟨nm2, hc, hrr⟩ := mem_ns_call_of hm
            have hnm : nm2 = nm := by
              cases hc
              rfl
            subst hnm
            exact ⟨s, List.mem_cons_self _ _, hrr ▸ hl⟩
          | inr hm =>
            obtain ⟨s2, hs2, hlook⟩ := (ih hr).mp hm
            exact ⟨s2, List.mem_cons_of_mem _ hs2, hlook⟩
        · intro hmem
          obtain ⟨s2, hs2, hlook⟩ := hmem
          cases List.mem_cons.mp hs2 with
          | inl he =>
            subst he
            rw [hl] at hlook
            simp only [Option.some.injEq] at hlook
            subst hlook
            exact Or.inl (by simp [ns_call_of])
          | inr he => exact Or.inr ((ih hr).mpr ⟨s2, he, hlook⟩)

theorem namespace_calls_all_register {res : List (DojoSelector × ResourceDiff)}
    {ns : List DojoSelector} {cs : List Call}
    (h : namespace_calls res ns = Except.ok cs) :
    ∀ c ∈ cs, ∃ nm, c = Call.registerNamespace nm := by
  induction ns generalizing cs with
  | nil =>
    simp only [namespace_calls, Except.ok.injEq] at h
    subst h
    intro c hc
    cases hc
  | cons s rest ih =>
    rw [namespace_calls] at h
    cases hl : res.lookup s with
    | none => rw [hl] at h; cases h
    | some r =>
      rw [hl] at h
      cases hr : namespace_calls res rest with
      | error e => rw [hr] at h; cases h
      | ok cs2 =>
        rw [hr] at h
        simp only [Except.ok.injEq] at h
        subst h
        intro c hc
        cases List.mem_append.mp hc with
        | inl hm =>
          obtain ⟨nm, hcn, _⟩ := mem_ns_call_of hm
          exact ⟨nm, hcn⟩
        | inr hm => exact ih hr c hm

theorem namespace_calls_total {res : List (DojoSelector × ResourceDiff)}
    {ns : List DojoSelector}
    (h : ∀ s ∈ ns, (res.lookup s).isSome) :
    ∃ cs, namespace_calls res ns = Except.ok cs := by
  induction ns with
  | nil => exact ⟨[], rfl⟩
  | cons s rest ih =>
    have hs : (res.lookup s).isSome := h s (List.mem_cons_self _ _)
    obtain ⟨r, hr⟩ := Option.isSome_iff_exists.mp hs
    obtain ⟨cs2, hcs2⟩ := ih (fun s2 hs2 => h s2 (List.mem_cons_of_mem _ hs2))
    refine ⟨ns_call_of r ++ cs2, ?_⟩
    rw [namespace_calls, hr, hcs2]

/-! ## Permission reconciliation lemmas -/

theorem grantee_calls_ok_resolves {addrs : List (DojoSelector × Address)}
    {remote : List (DojoSelector × List Address)} {target : DojoSelector}
    {mk : DojoSelector → Address → Call} {gs : List (DojoSelector × String)}
    {cs : List Call} (h : grantee_calls addrs remote target mk gs = Except.ok cs) :
    ∀ g ∈ gs, (addrs.lookup g.1).isSome := by
  induction gs generalizing cs with
  | nil => intro g hg; cases hg
  | cons g0 rest ih =>
    rw [grantee_calls] at h
    cases hl : addrs.lookup g0.1 with
    | none => rw [hl] at h; cases h
    | some a =>
      rw [hl] at h
      cases hr : grantee_calls addrs remote target mk rest with
      | error e => rw [hr] at h; cases h
      | ok cs2 =>
        rw [hr] at h
        intro g hg
        cases List.mem_cons.mp hg with
        | inl he => subst he; simp [hl]
        | inr he => exact ih hr g he

theorem grantee_calls_error_orphan {addrs : List (DojoSelector × Address)}
    {remote : List (DojoSelector × List Address)} {target : DojoSelector}
    {mk : DojoSelector → Address → Call} {gs : List (DojoSelector × String)}
    {e : MigrationError}
    (h : grantee_calls addrs remote target mk gs = Except.error e) :
    ∃ g ∈ gs, addrs.lookup g.1 = none ∧
      e = MigrationError.orphanSelectorAddress g.2 := by
  induction gs with
  | nil => cases h
  | cons g0 rest ih =>
    rw [grantee_calls] at h
    cases hl : addrs.lookup g0.1 with
    | none =>
      rw [hl] at h
      simp only [Except.error.injEq] at h
      exact ⟨g0, List.mem_cons_self _ _, hl, h.symm⟩
    | some a =>
      rw [hl] at h
      cases hr : grantee_calls addrs remote target mk rest with
      | error e2 =>
        rw [hr] at h
        simp only [Except.error.injEq] at h
        subst h
        obtain ⟨g, hg, hn, he⟩ := ih hr
        exact ⟨g, List.mem_cons_of_mem _ hg, hn, he⟩
      | ok cs2 => rw [hr] at h; cases h

theorem grantee_calls_mem {addrs : List (DojoSelector × Address)}
    {remote : List (DojoSelector × List Address)} {target : DojoSelector}
    {mk : DojoSelector → Address → Call} {gs : List (DojoSelector × String)}
    {cs : List Call} (h : grantee_calls addrs remote target mk gs = Except.ok cs) :
    ∀ c ∈ cs, ∃ a, c = mk target a ∧ a ∉ ((remote.lookup target).getD []) := by
  induction gs generalizing cs with
  | nil =>
    simp only [grantee_calls, Except.ok.injEq] at h
    subst h
    intro c hc
    cases hc
  | cons g0 rest ih =>
    rw [grantee_calls] at h
    cases hl : addrs.lookup g0.1 with
    | none => rw [hl] at h; cases h
    | some a =>
      rw [hl] at h
      cases hr : grantee_calls addrs remote target mk rest with
      | error e => rw [hr] at h; cases h
      | ok cs2 =>
        rw [hr] at h
        simp only [Except.ok.injEq] at h
        subst h
        intro c hc
        cases List.mem_append.mp hc with
        | inl hm =>
          by_cases hmem : a ∈ ((remote.lookup target).getD [])
          · simp [hmem] at hm
          · simp only [hmem, if_neg, not_false_iff, List.mem_singleton] at hm
            exact ⟨a, hm, hmem⟩
        | inr hm => exact ih hr c hm

theorem grantee_calls_complete {addrs : List (DojoSelector × Address)}
    {remote : List (DojoSelector × List Address)} {target : DojoSelector}
    {mk : DojoSelector → Address → Call} {gs : List (DojoSelector × String)}
    {cs : List Call} (h : grantee_calls addrs remote target mk gs = Except.ok cs) :
    ∀ g ∈ gs, ∀ a, addrs.lookup g.1 = some a →
      a ∉ ((remote.lookup target).getD []) → mk target a ∈ cs := by
  induction gs generalizing cs with
  | nil => intro g hg; cases hg
  | cons g0 rest ih =>
    rw [grantee_calls] at h
    cases hl : addrs.lookup g0.1 with
    | none => rw [hl] at h; cases h
    | some a0 =>
      rw [hl] at h
      cases hr : grantee_calls addrs remote target mk rest with
      | error e => rw [hr] at h; cases h
      | ok cs2 =>
        rw [hr] at h
        simp only [Except.ok.injEq] at h
        subst h
        intro g hg a ha hnotin
        cases List.mem_cons.mp hg with
        | inl he =>
          subst he
          rw [hl] at ha
          simp only [Option.some.injEq] at ha
          subst ha
          simp [hnotin]
        | inr he =>
          exact List.mem_append_right _ (ih hr g he a ha hnotin)

theorem local_grants_ok_resolves {addrs : List (DojoSelector × Address)}
    {remote : List (DojoSelector × List Address)}
    {mk : DojoSelector → Address → Call}
    {L : List (DojoSelector × LocalPermission)} {cs : List Call}
    (h : local_grants_calls addrs remote mk L = Except.ok cs) :
    ∀ tp ∈ L, ∀ g ∈ tp.2.grantees, (addrs.lookup g.1).isSome := by
  induction L generalizing cs with
  | nil => intro tp htp; cases htp
  | cons tp0 rest ih =>
    rw [local_grants_calls] at h
    cases hg : grantee_calls addrs remote tp0.1 mk tp0.2.grantees with
    | error e => rw [hg] at h; cases h
    | ok cs1 =>
      rw [hg] at h
      cases hr : local_grants_calls addrs remote mk rest with
      | error e => rw [hr] at h; cases h
      | ok cs2 =>
        intro tp htp g hgg
        cases List.mem_cons.mp htp with
        | inl he => subst he; exact grantee_calls_ok_resolves hg g hgg
        | inr he => exact ih hr tp he g hgg

theorem local_grants_error_orphan {addrs : List (DojoSelector × Address)}
    {remote : List (DojoSelector × List Address)}
    {mk : DojoSelector → Address → Call}
    {L : List (DojoSelector × LocalPermission)} {e : MigrationError}
    (h : local_grants_calls addrs remote mk L = Except.error e) :
    ∃ tp ∈ L, ∃ g ∈ tp.2.grantees, addrs.lookup g.1 = none ∧
      e = MigrationError.orphanSelectorAddress g.2 := by
  induction L with
  | nil => cases h
  | cons tp0 rest ih =>
    rw [local_grants_calls] at h
    cases hg : grantee_calls addrs remote tp0.1 mk tp0.2.grantees with
    | error e2 =>
      rw [hg] at h
      simp only [Except.error.injEq] at h
      subst h
      obtain ⟨g, hgg, hn, he⟩ := grantee_calls_error_orphan hg
      exact ⟨tp0, List.mem_cons_self _ _, g, hgg, hn, he⟩
    | ok cs1 =>
      rw [hg] at h
      cases hr : local_grants_calls addrs remote mk rest with
      | error e2 =>
        rw [hr] at h
        simp only [Except.error.injEq] at h
        subst h
        obtain ⟨tp, htp, g, hgg, hn, he⟩ := ih hr
        exact ⟨tp, List.mem_cons_of_mem _ htp, g, hgg, hn, he⟩
      | ok cs2 => rw [hr] at h; cases h

theorem local_grants_mem {addrs : List (DojoSelector × Address)}
    {remote : List (DojoSelector × List Address)}
    {mk : DojoSelector → Address → Call}
    {L : List (DojoSelector × LocalPermission)} {cs : List Call}
    (h : local_grants_calls addrs remote mk L = Except.ok cs) :
    ∀ c ∈ cs, ∃ t a, c = mk t a ∧ a ∉ ((remote.lookup t).getD []) := by
  induction L generalizing cs with
  | nil =>
    simp only [local_grants_calls, Except.ok.injEq] at h
    subst h
    intro c hc
    cases hc
  | cons tp0 rest ih =>
    rw [local_grants_calls] at h
    cases hg : grantee_calls addrs remote tp0.1 mk tp0.2.grantees with
    | error e => rw [hg] at h; cases h
    | ok cs1 =>
      rw [hg] at h
      cases hr : local_grants_calls addrs remote mk rest with
      | error e => rw [hr] at h; cases h
      | ok cs2 =>
        rw [hr] at h
        simp only [Except.ok.injEq] at h
        subst h
        intro c hc
        cases List.mem_append.mp hc with
        | inl hm =>
          obtain ⟨a, hca, hnotin⟩ := grantee_calls_mem hg c hm
          exact ⟨tp0.1, a, hca, hnotin⟩
        | inr hm => exact ih hr c hm

theorem local_grants_complete {addrs : List (DojoSelector × Address)}
    {remote : List (DojoSelector × List Address)}
    {mk : DojoSelector → Address → Call}
    {L : List (DojoSelector × LocalPermission)} {cs : List Call}
    (h : local_grants_calls addrs remote mk L = Except.ok cs) :
    ∀ tp ∈ L, ∀ g ∈ tp.2.grantees, ∀ a, addrs.lookup g.1 = some a →
      a ∉ ((remote.lookup tp.1).getD []) → mk tp.1 a ∈ cs := by
  induction L generalizing cs with
  | nil => intro tp htp; cases htp
  | cons tp0 rest ih =>
    rw [local_grants_calls] at h
    cases hg : grantee_calls addrs remote tp0.1 mk tp0.2.grantees with
    | error e => rw [hg] at h; cases h
    | ok cs1 =>
      rw [hg] at h
      cases hr : local_grants_calls addrs remote mk rest with
      | error e => rw [hr] at h; cases h
      | ok cs2 =>
        rw [hr] at h
        simp only [Except.ok.injEq] at h
        subst h
        intro tp htp g hgg a ha hnotin
        cases List.mem_cons.mp htp with
        | inl he =>
          subst he
          exact List.mem_append_left _
            (grantee_calls_complete hg g hgg a ha hnotin)
        | inr he =>
          exact List.mem_append_right _ (ih hr tp he g hgg a ha hnotin)

/-! ## Phase trace decomposition lemmas -/

theorem mem_ensure_world_trace {env : Env} {m : Migration} {e : Event}
    (h : e ∈ (m.ensure_world env).1) :
    (∃ a b, e = Event.declared a b) ∨ ∃ a b c d, e = Event.deployed a b c d := by
  unfold Migration.ensure_world at h
  cases hst : m.diff.world_status with
  | notDeployed => rw [hst] at h; simp at h
  | synced => rw [hst] at h; simp at h
  | newVersion ch casm cls =>
    rw [hst] at h
    by_cases h1 : env.declare_ok casm (flatten cls) = true
    · by_cases h2 : env.deploy_ok = true
      · simp only [h1, h2, if_true, List.mem_cons, List.mem_singleton,
          List.not_mem_nil] at h
        cases h with
        | inl he => exact Or.inl ⟨_, _, he⟩
        | inr he =>
          cases he with
          | inl he2 => exact Or.inr ⟨_, _, _, _, he2⟩
          | inr he2 => cases he2
      · simp [h1, h2] at h
        exact Or.inl ⟨_, _, h⟩
    · simp [h1] at h

theorem mem_sync_permissions_trace {env : Env} {m : Migration} {e : Event}
    (h : e ∈ (m.sync_permissions env).1) :
    ∃ wcalls ocalls,
      local_grants_calls m.diff.contract_addresses m.diff.remote_writers
        Call.grantWriter m.profile_config.local_writers = Except.ok wcalls ∧
      local_grants_calls m.diff.contract_addresses m.diff.remote_owners
        Call.grantOwner m.profile_config.local_owners = Except.ok ocalls ∧
      e ∈ (exec_invoker env m.do_multicall (wcalls ++ ocalls)).1 := by
  unfold Migration.sync_permissions at h
  cases hw : local_grants_calls m.diff.contract_addresses m.diff.remote_writers
      Call.grantWriter m.profile_config.local_writers with
  | error e2 => rw [hw] at h; simp at h
  | ok wcalls =>
    rw [hw] at h
    cases ho : local_grants_calls m.diff.contract_addresses m.diff.remote_owners
        Call.grantOwner m.profile_config.local_owners with
    | error e2 => rw [ho] at h; simp at h
    | ok ocalls =>
      rw [ho] at h
      exact ⟨wcalls, ocalls, rfl, rfl, h⟩

theorem mem_initialize_contracts_trace {env : Env} {m : Migration} {e : Event}
    (h : e ∈ (m.initialize_contracts env).1) :
    ∃ cs, init_calls m.init_call_args m.diff.resources = Except.ok cs ∧
      e ∈ (exec_invoker env m.do_multicall cs).1 := by
  unfold Migration.initialize_contracts at h
  cases hc : init_calls m.init_call_args m.diff.resources with
  | error e2 => rw [hc] at h; simp at h
  | ok cs =>
    rw [hc] at h
    exact ⟨cs, rfl, h⟩

theorem mem_sync_resources_trace {env : Env} {m : Migration} {e : Event}
    (h : e ∈ (m.sync_resources env).1) :
    (∃ a b, e = Event.declared a b) ∨
    ∃ cs, m.phase2_batch = Except.ok cs ∧
      e ∈ (exec_invoker env m.do_multicall cs).1 := by
  unfold Migration.sync_resources at h
  cases hb : m.phase2_batch with
  | error e2 => rw [hb] at h; simp at h
  | ok calls =>
    rw [hb] at h
    cases hd : (declarer_declare_all env m.phase2_classes).2 with
    | some e2 =>
      rw [hd] at h
      obtain ⟨kv, _, he⟩ := mem_declarer_declare_all h
      exact Or.inl ⟨_, _, he⟩
    | none =>
      rw [hd] at h
      simp only [List.mem_append] at h
      cases h with
      | inl hm =>
        obtain ⟨kv, _, he⟩ := mem_declarer_declare_all hm
        exact Or.inl ⟨_, _, he⟩
      | inr hm => exact Or.inr ⟨calls, rfl, hm⟩

theorem mem_migrate_trace {env : Env} {m : Migration} {tr : List Event}
    {err : Option MigrationError} {e : Event}
    (h : m.migrate env = (tr, err)) (he : e ∈ tr) :
    e ∈ (m.ensure_world env).1 ∨ e ∈ (m.sync_resources env).1 ∨
    e ∈ (m.sync_permissions env).1 ∨ e ∈ (m.initialize_contracts env).1 := by
  unfold Migration.migrate at h
  cases h1 : (m.ensure_world env).2 with
  | some e1 =>
    rw [h1] at h
    simp only [Prod.mk.injEq] at h
    obtain ⟨htr, _⟩ := h
    subst htr
    exact Or.inl he
  | none =>
    rw [h1] at h
    cases h2 : (m.sync_resources env).2 with
    | some e2 =>
      rw [h2] at h
      simp only [Prod.mk.injEq] at h
      obtain ⟨htr, _⟩ := h
      subst htr
      cases List.mem_append.mp he with
      | inl hm => exact Or.inl hm
      | inr hm => exact Or.inr (Or.inl hm)
    | none =>
      rw [h2] at h
      cases h3 : (m.sync_permissions env).2 with
      | some e3 =>
        rw [h3] at h
        simp only [Prod.mk.injEq] at h
        obtain ⟨htr, _⟩ := h
        subst htr
        cases List.mem_append.mp he with
        | inl hm =>
          cases List.mem_append.mp hm with
          | inl hm2 => exact Or.inl hm2
          | inr hm2 => exact Or.inr (Or.inl hm2)
        | inr hm => exact Or.inr (Or.inr (Or.inl hm))
      | none =>
        rw [h3] at h
        simp only [Prod.mk.injEq] at h
        obtain ⟨htr, _⟩ := h
        subst htr
        cases List.mem_append.mp he with
        | inl hm =>
          cases List.mem_append.mp hm with
          | inl hm2 =>
            cases List.mem_append.mp hm2 with
            | inl hm3 => exact Or.inl hm3
            | inr hm3 => exact Or.inr (Or.inl hm3)
          | inr hm2 => exact Or.inr (Or.inr (Or.inl hm2))
        | inr hm => exact Or.inr (Or.inr (Or.inr hm))

theorem mem_exec_invoker_true {env : Env} {cs : List Call} {e : Event}
    (h : e ∈ (exec_invoker env true cs).1) : e = Event.multicalled cs :=
  mem_invoker_multicall (by simpa [exec_invoker] using h)

theorem mem_exec_invoker_false {env : Env} {cs : List Call} {e : Event}
    (h : e ∈ (exec_invoker env false cs).1) : ∃ c ∈ cs, e = Event.invoked c :=
  mem_invoke_seq (by simpa [exec_invoker] using h)

theorem parse_args_error_of_bad {args : List String}
    (h : ∃ a ∈ args, felt_from_str a = none) :
    ∃ a ∈ args, parse_args args = Except.error (MigrationError.feltFromStr a) ∧
      felt_from_str a = none := by
  induction args with
  | nil => obtain ⟨a, ha, _⟩ := h; cases ha
  | cons a0 rest ih =>
    cases hf : felt_from_str a0 with
    | none =>
      refine ⟨a0, List.mem_cons_self _ _, ?_, hf⟩
      rw [parse_args, hf]
    | some f =>
      have hrest : ∃ a ∈ rest, felt_from_str a = none := by
        obtain ⟨a, ha, han⟩ := h
        cases List.mem_cons.mp ha with
        | inl he => subst he; rw [hf] at han; cases han
        | inr he => exact ⟨a, he, han⟩
      obtain ⟨a, ha, herr, han⟩ := ih hrest
      refine ⟨a, List.mem_cons_of_mem _ ha, ?_, han⟩
      rw [parse_args, hf, herr]

/-! ## Claim theorems -/

/-- C1: `migrate` executes exactly four phases in the strict order
ensure-world, sync-resources, sync-permissions, initialize-contracts; each
phase's executed operations precede the next phase's in the run trace, and if
a phase returns an error, `migrate` returns that error and the later phases
contribute nothing to the run (they do not execute). -/
theorem migrate_phase_order (env : Env) (m : Migration) :
    (∀ t1 t2 t3 t4,
      m.ensure_world env = (t1, none) → m.sync_resources env = (t2, none) →
      m.sync_permissions env = (t3, none) →
      m.initialize_contracts env = (t4, none) →
      m.migrate env = (t1 ++ t2 ++ t3 ++ t4, none)) ∧
    (∀ t1 e, m.ensure_world env = (t1, some e) →
      m.migrate env = (t1, some e)) ∧
    (∀ t1 t2 e, m.ensure_world env = (t1, none) →
      m.sync_resources env = (t2, some e) →
      m.migrate env = (t1 ++ t2, some e)) ∧
    (∀ t1 t2 t3 e, m.ensure_world env = (t1, none) →
      m.sync_resources env = (t2, none) →
      m.sync_permissions env = (t3, some e) →
      m.migrate env = (t1 ++ t2 ++ t3, some e)) ∧
    (∀ t1 t2 t3 t4 e, m.ensure_world env = (t1, none) →
      m.sync_resources env = (t2, none) →
      m.sync_permissions env = (t3, none) →
      m.initialize_contracts env = (t4, some e) →
      m.migrate env = (t1 ++ t2 ++ t3 ++ t4, some e)) := by
  refine ⟨?_, ?_, ?_, ?_, ?_⟩
  · intro t1 t2 t3 t4 h1 h2 h3 h4
    simp [Migration.migrate, h1, h2, h3, h4]
  · intro t1 e h1
    simp [Migration.migrate, h1]
  · intro t1 t2 e h1 h2
    simp [Migration.migrate, h1, h2]
  · intro t1 t2 t3 e h1 h2 h3
    simp [Migration.migrate, h1, h2, h3]
  · intro t1 t2 t3 t4 e h1 h2 h3 h4
    simp [Migration.migrate, h1, h2, h3, h4]

/-- C1 witness: a fully empty diff migrates with an empty trace and no error;
a configuration with an unresolvable writer grantee aborts in phase 3 with
the orphan error and an empty trace. -/
theorem migrate_phase_order_witness :
    Migration.migrate env_ok m_empty = ([], none) ∧
    Migration.migrate env_ok m_orphan =
      ([], some (MigrationError.orphanSelectorAddress "ns-ghost")) := by
  constructor
  · exact (migrate_phase_order env_ok m_empty).1 [] [] [] [] rfl rfl rfl rfl
  · exact (migrate_phase_order env_ok m_orphan).2.2.2.1 [] [] []
      (MigrationError.orphanSelectorAddress "ns-ghost") rfl rfl rfl

/-- C7 counterexample: with a `NotDeployed` world status (and no class info,
which in the spec's data model a `NotDeployed` status never carries),
`ensure_world` performs no operation and returns no error, and the whole
migration succeeds — the claim says this case fails with a configuration
error. -/
theorem ensure_world_not_deployed_succeeds :
    Migration.ensure_world env_ok m_not_deployed = ([], none) ∧
    Migration.migrate env_ok m_not_deployed = ([], none) := ⟨rfl, rfl⟩

/-- C7 (amended): if the world status is `NewVersion`, the world artifact is
declared (awaited) and then the instance is deployed with the deterministic
seed-derived salt (a declare failure aborts before any deployment); if the
status is `Synced` or `NotDeployed`, the phase performs no operation and
succeeds. -/
theorem ensure_world_characterization (env : Env) (m : Migration) :
    (∀ ch casm cls, m.diff.world_status = WorldStatus.newVersion ch casm cls →
      env.declare_ok casm (flatten cls) = true → env.deploy_ok = true →
      m.ensure_world env =
        ([Event.declared casm (flatten cls),
          Event.deployed ch (world_salt m.profile_config.world.seed) [ch] 0],
         none)) ∧
    (∀ ch casm cls, m.diff.world_status = WorldStatus.newVersion ch casm cls →
      env.declare_ok casm (flatten cls) = false →
      m.ensure_world env = ([], some (MigrationError.declareFailed casm))) ∧
    (m.diff.world_status = WorldStatus.synced →
      m.ensure_world env = ([], none)) ∧
    (m.diff.world_status = WorldStatus.notDeployed →
      m.ensure_world env = ([], none)) := by
  refine ⟨?_, ?_, ?_, ?_⟩
  · intro ch casm cls hst h1 h2
    simp [Migration.ensure_world, hst, h1, h2]
  · intro ch casm cls hst h1
    simp [Migration.ensure_world, hst, h1]
  · intro hst
    simp [Migration.ensure_world, hst]
  · intro hst
    simp [Migration.ensure_world, hst]

/-- C7 witness: the sample diff carries a `NewVersion` world and is declared
then deployed with the salt of its seed; the empty (synced) diff is a no-op. -/
theorem ensure_world_characterization_witness :
    Migration.ensure_world env_ok sample_migration =
      ([Event.declared 8 9, Event.deployed 7 (world_salt "seed") [7] 0],
       none) ∧
    Migration.ensure_world env_ok m_empty = ([], none) :=
  ⟨(ensure_world_characterization env_ok sample_migration).1 7 8 9 rfl rfl rfl,
   (ensure_world_characterization env_ok m_empty).2.2.1 rfl⟩

/-- C9: if every selector of the diff's namespace set has an entry in the
diff's resource map, `namespaces_getcalls` cannot hit the failure branch of
the resource-map lookup (its only partial operation), so it never panics and
returns its call list. -/
theorem namespaces_getcalls_no_panic (m : Migration)
    (h : ∀ s ∈ m.diff.namespaces, (m.diff.resources.lookup s).isSome) :
    (∃ cs, m.namespaces_getcalls = Except.ok cs) ∧
    ∀ e, m.namespaces_getcalls ≠ Except.error e := by
  obtain ⟨cs, hcs⟩ :=
    @namespace_calls_total m.diff.resources m.diff.namespaces h
  refine ⟨⟨cs, hcs⟩, fun e he => ?_⟩
  unfold Migration.namespaces_getcalls at he
  rw [hcs] at he
  cases he

/-- C9 witness: the sample diff lists namespace selector 1, present in its
resource map. -/
theorem namespaces_getcalls_no_panic_witness :
    (∃ cs, Migration.namespaces_getcalls sample_migration = Except.ok cs) ∧
    ∀ e, Migration.namespaces_getcalls sample_migration ≠ Except.error e :=
  namespaces_getcalls_no_panic sample_migration (by decide)

/-- C10: multicall is the default execution mode (selected whenever the
profile has no `[migration]` section), sequential mode is selected exactly
when `disable_multicall` is set, and one run uses the selected mode uniformly:
with multicall on, no sequential invocation event ever appears in the run
trace, and with multicall off, no multicall event ever appears. -/
theorem do_multicall_default_and_uniform (env : Env) (m : Migration) :
    (m.profile_config.migration = none → m.do_multicall = true) ∧
    (∀ mc, m.profile_config.migration = some mc →
      m.do_multicall = !mc.disable_multicall) ∧
    (∀ tr err c, m.migrate env = (tr, err) → m.do_multicall = true →
      Event.invoked c ∉ tr) ∧
    (∀ tr err cs, m.migrate env = (tr, err) → m.do_multicall = false →
      Event.multicalled cs ∉ tr) := by
  refine ⟨?_, ?_, ?_, ?_⟩
  · intro h
    unfold Migration.do_multicall
    rw [h]
  · intro mc h
    unfold Migration.do_multicall
    rw [h]
  · intro tr err c h hmode hmem
    rcases mem_migrate_trace h hmem with h1 | h1 | h1 | h1
    · rcases mem_ensure_world_trace h1 with ⟨a, b, he⟩ | ⟨a, b, c2, d, he⟩ <;>
        cases he
    · rcases mem_sync_resources_trace h1 with ⟨a, b, he⟩ | ⟨cs, _, hmem2⟩
      · cases he
      · rw [hmode] at hmem2
        cases mem_exec_invoker_true hmem2
    · obtain ⟨w, o, _, _, hmem2⟩ := mem_sync_permissions_trace h1
      rw [hmode] at hmem2
      cases mem_exec_invoker_true hmem2
    · obtain ⟨cs2, _, hmem2⟩ := mem_initialize_contracts_trace h1
      rw [hmode] at hmem2
      cases mem_exec_invoker_true hmem2
  · intro tr err cs h hmode hmem
    rcases mem_migrate_trace h hmem with h1 | h1 | h1 | h1
    · rcases mem_ensure_world_trace h1 with ⟨a, b, he⟩ | ⟨a, b, c2, d, he⟩ <;>
        cases he
    · rcases mem_sync_resources_trace h1 with ⟨a, b, he⟩ | ⟨cs2, _, hmem2⟩
      · cases he
      · rw [hmode] at hmem2
        obtain ⟨c2, _, he⟩ := mem_exec_invoker_false hmem2
        cases he
    · obtain ⟨w, o, _, _, hmem2⟩ := mem_sync_permissions_trace h1
      rw [hmode] at hmem2
      obtain ⟨c2, _, he⟩ := mem_exec_invoker_false hmem2
      cases he
    · obtain ⟨cs2, _, hmem2⟩ := mem_initialize_contracts_trace h1
      rw [hmode] at hmem2
      obtain ⟨c2, _, he⟩ := mem_exec_invoker_false hmem2
      cases he

/-- C10 witness: the empty profile defaults to multicall, and the sample run
(multicall mode) contains no sequential invocation event. -/
theorem do_multicall_default_and_uniform_witness :
    Migration.do_multicall m_empty = true ∧
    Event.invoked (Call.initContract 2 []) ∉
      (Migration.migrate env_ok sample_migration).1 := by
  constructor
  · exact (do_multicall_default_and_uniform env_ok m_empty).1 rfl
  · exact (do_multicall_default_and_uniform env_ok sample_migration).2.2.1
      (Migration.migrate env_ok sample_migration).1
      (Migration.migrate env_ok sample_migration).2
      (Call.initContract 2 []) rfl rfl

/-- C3: for every non-namespace resource processed in phase 2, a `Created`
resource adds exactly its artifact to the declarer and emits exactly one
register call, an `Updated` resource adds its new (local) artifact and emits
exactly one upgrade call, and a `Synced` resource adds no artifact and emits
no call. -/
theorem phase2_per_resource :
    (∀ l c kv, register_call_of l = some c → local_artifact l = some kv →
      resource_getcalls (ResourceDiff.created l) = ([c], [kv])) ∧
    (∀ l r c kv, l.resource_type = r.resource_type →
      upgrade_call_of l = some c → local_artifact l = some kv →
      resource_getcalls (ResourceDiff.updated l r) = ([c], [kv])) ∧
    (∀ r, resource_getcalls (ResourceDiff.synced r) = ([], [])) := by
  refine ⟨?_, ?_, ?_⟩
  · intro l c kv hc hkv
    cases l with
    | namespaceRes n => cases hc
    | contract c2 =>
      simp only [register_call_of, Option.some.injEq] at hc
      simp only [local_artifact, Option.some.injEq] at hkv
      subst hc
      subst hkv
      rfl
    | model mo =>
      simp only [register_call_of, Option.some.injEq] at hc
      simp only [local_artifact, Option.some.injEq] at hkv
      subst hc
      subst hkv
      rfl
    | event ev =>
      simp only [register_call_of, Option.some.injEq] at hc
      simp only [local_artifact, Option.some.injEq] at hkv
      subst hc
      subst hkv
      rfl
  · intro l r c kv ht hc hkv
    cases l with
    | namespaceRes n => cases hc
    | contract c2 =>
      cases r with
      | contract r2 =>
        simp only [upgrade_call_of, Option.some.injEq] at hc
        simp only [local_artifact, Option.some.injEq] at hkv
        subst hc
        subst hkv
        rfl
      | namespaceRes n2 =>
        simp [ResourceLocal.resource_type, ResourceRemote.resource_type] at ht
      | model m2 =>
        simp [ResourceLocal.resource_type, ResourceRemote.resource_type] at ht
      | event e2 =>
        simp [ResourceLocal.resource_type, ResourceRemote.resource_type] at ht
    | model mo =>
      cases r with
      | model r2 =>
        simp only [upgrade_call_of, Option.some.injEq] at hc
        simp only [local_artifact, Option.some.injEq] at hkv
        subst hc
        subst hkv
        rfl
      | namespaceRes n2 =>
        simp [ResourceLocal.resource_type, ResourceRemote.resource_type] at ht
      | contract c2 =>
        simp [ResourceLocal.resource_type, ResourceRemote.resource_type] at ht
      | event e2 =>
        simp [ResourceLocal.resource_type, ResourceRemote.resource_type] at ht
    | event ev =>
      cases r with
      | event r2 =>
        simp only [upgrade_call_of, Option.some.injEq] at hc
        simp only [local_artifact, Option.some.injEq] at hkv
        subst hc
        subst hkv
        rfl
      | namespaceRes n2 =>
        simp [ResourceLocal.resource_type, ResourceRemote.resource_type] at ht
      | contract c2 =>
        simp [ResourceLocal.resource_type, ResourceRemote.resource_type] at ht
      | model m2 =>
        simp [ResourceLocal.resource_type, ResourceRemote.resource_type] at ht
  · intro r
    cases r with
    | namespaceRes n => rfl
    | contract c => rfl
    | model mo => rfl
    | event ev => rfl

/-- C3 witness: the sample created contract yields exactly one register call
and its artifact; a synced contract yields nothing. -/
theorem phase2_per_resource_witness :
    resource_getcalls (ResourceDiff.created
        (ResourceLocal.contract sample_contract)) =
      ([Call.registerContract sample_contract.dojo_selector "ns" 11],
       [(12, 13)]) ∧
    resource_getcalls (ResourceDiff.synced
        (ResourceRemote.contract ⟨"actions", "ns", false⟩)) = ([], []) :=
  ⟨phase2_per_resource.1 (ResourceLocal.contract sample_contract) _ _ rfl rfl,
   phase2_per_resource.2.2 (ResourceRemote.contract ⟨"actions", "ns", false⟩)⟩

/-- C6: phase 4 emits an initialization call exactly for every `Created`
contract and for every `Updated`/`Synced` contract whose remote record is not
yet initialized, with the configured arguments for the contract's tag parsed
as field elements (empty list when no entry is configured); non-contract
resources never produce an init call, and a parse failure of any configured
argument makes the phase fail with the offending value and execute nothing. -/
theorem initialize_contracts_characterization (env : Env) (m : Migration) :
    (∀ cfg sel c, init_call_for cfg sel
        (ResourceDiff.created (ResourceLocal.contract c)) =
      eligible_init_call cfg sel
        (ResourceDiff.created (ResourceLocal.contract c)).tag) ∧
    (∀ cfg sel l rc, l.resource_type = ResourceType.contract →
      init_call_for cfg sel
          (ResourceDiff.updated l (ResourceRemote.contract rc)) =
        if rc.is_initialized then Except.ok []
        else eligible_init_call cfg sel
          (ResourceDiff.updated l (ResourceRemote.contract rc)).tag) ∧
    (∀ cfg sel rc, init_call_for cfg sel
        (ResourceDiff.synced (ResourceRemote.contract rc)) =
      if rc.is_initialized then Except.ok []
      else eligible_init_call cfg sel
        (ResourceDiff.synced (ResourceRemote.contract rc)).tag) ∧
    (∀ cfg sel r, r.resource_type ≠ ResourceType.contract →
      init_call_for cfg sel r = Except.ok []) ∧
    (∀ args, (∃ a ∈ args, felt_from_str a = none) →
      ∃ a ∈ args, parse_args args = Except.error (MigrationError.feltFromStr a) ∧
        felt_from_str a = none) ∧
    (∀ e, init_calls m.init_call_args m.diff.resources = Except.error e →
      m.initialize_contracts env = ([], some e)) := by
  refine ⟨?_, ?_, ?_, ?_, ?_, ?_⟩
  · intro cfg sel c
    cases hl : cfg.lookup (ResourceDiff.created (ResourceLocal.contract c)).tag with
    | some args =>
      simp [init_call_for, eligible_init_call, hl, ResourceDiff.resource_type,
        ResourceLocal.resource_type]
    | none =>
      simp [init_call_for, eligible_init_call, hl, parse_args,
        ResourceDiff.resource_type, ResourceLocal.resource_type]
  · intro cfg sel l rc ht
    cases hi : rc.is_initialized with
    | true =>
      simp [init_call_for, ResourceDiff.resource_type, ht, hi]
    | false =>
      cases hl : cfg.lookup
          (ResourceDiff.updated l (ResourceRemote.contract rc)).tag with
      | some args =>
        simp [init_call_for, eligible_init_call, ResourceDiff.resource_type,
          ht, hi, hl]
      | none =>
        simp [init_call_for, eligible_init_call, ResourceDiff.resource_type,
          ht, hi, hl, parse_args]
  · intro cfg sel rc
    cases hi : rc.is_initialized with
    | true =>
      simp [init_call_for, ResourceDiff.resource_type,
        ResourceRemote.resource_type, hi]
    | false =>
      cases hl : cfg.lookup
          (ResourceDiff.synced (ResourceRemote.contract rc)).tag with
      | some args =>
        simp [init_call_for, eligible_init_call, ResourceDiff.resource_type,
          ResourceRemote.resource_type, hi, hl]
      | none =>
        simp [init_call_for, eligible_init_call, ResourceDiff.resource_type,
          ResourceRemote.resource_type, hi, hl, parse_args]
  · intro cfg sel r hne
    simp [init_call_for, hne]
  · intro args h
    exact parse_args_error_of_bad h
  · intro e he
    unfold Migration.initialize_contracts
    rw [he]

/-- C6 witness: an already-initialized updated contract emits nothing, and a
created contract whose configured argument does not parse makes the phase
fail with that argument and an empty trace. -/
theorem initialize_contracts_characterization_witness :
    init_call_for [] 2 (ResourceDiff.updated
        (ResourceLocal.contract sample_contract)
        (ResourceRemote.contract ⟨"actions", "ns", true⟩)) = Except.ok [] ∧
    Migration.initialize_contracts env_ok m_badargs =
      ([], some (MigrationError.feltFromStr "zzz")) :=
  ⟨(initialize_contracts_characterization env_ok m_empty).2.1 [] 2
      (ResourceLocal.contract sample_contract) ⟨"actions", "ns", true⟩ rfl,
   (initialize_contracts_characterization env_ok m_badargs).2.2.2.2.2
      (MigrationError.feltFromStr "zzz") rfl⟩

/-- C4: the phase-2 batch is the namespace-registration calls followed by
the resource calls; every call of the namespace segment is a namespace
registration, no resource call is one, and a namespace-registration call
appears in the batch exactly for the namespaces whose diff variant is
`Created` — no call is emitted for an existing (non-created) namespace. -/
theorem namespaces_registered_first (m : Migration) (batch : List Call)
    (h : m.phase2_batch = Except.ok batch) :
    ∃ ns_calls res_calls,
      batch = ns_calls ++ res_calls ∧
      m.namespaces_getcalls = Except.ok ns_calls ∧
      res_calls = (collect_resource_calls m.diff.resources).1 ∧
      (∀ c ∈ ns_calls, ∃ nm, c = Call.registerNamespace nm) ∧
      (∀ c ∈ res_calls, ∀ nm, c ≠ Call.registerNamespace nm) ∧
      (∀ nm, Call.registerNamespace nm ∈ batch ↔
        ∃ s ∈ m.diff.namespaces, m.diff.resources.lookup s =
          some (ResourceDiff.created (ResourceLocal.namespaceRes ⟨nm⟩))) := by
  unfold Migration.phase2_batch at h
  cases hn : m.namespaces_getcalls with
  | error e => rw [hn] at h; cases h
  | ok ns_calls =>
    rw [hn] at h
    simp only [Except.ok.injEq] at h
    subst h
    have hn2 : namespace_calls m.diff.resources m.diff.namespaces =
        Except.ok ns_calls := hn
    have hresnons : ∀ c ∈ (collect_resource_calls m.diff.resources).1,
        ∀ nm, c ≠ Call.registerNamespace nm := by
      intro c hc nm
      rcases collect_go_fst_mem hc with hacc | ⟨p, _, hcp⟩
      · cases hacc
      · exact resource_getcalls_no_register_namespace hcp nm
    refine ⟨ns_calls, (collect_resource_calls m.diff.resources).1, rfl, rfl,
      rfl, namespace_calls_all_register hn2, hresnons, ?_⟩
    intro nm
    rw [List.mem_append]
    constructor
    · intro hmem
      cases hmem with
      | inl hm => exact (namespace_calls_mem_iff hn2 nm).mp hm
      | inr hm => exact absurd rfl (hresnons _ hm nm)
    · intro hmem
      exact Or.inl ((namespace_calls_mem_iff hn2 nm).mpr hmem)

/-- C4 witness: in the sample diff the batch is the namespace registration
followed by the contract registration. -/
theorem namespaces_registered_first_witness :
    ∃ ns_calls res_calls,
      [Call.registerNamespace "ns",
       Call.registerContract sample_contract.dojo_selector "ns" 11] =
        ns_calls ++ res_calls ∧
      Migration.namespaces_getcalls sample_migration = Except.ok ns_calls ∧
      res_calls = (collect_resource_calls sample_migration.diff.resources).1 ∧
      (∀ c ∈ ns_calls, ∃ nm, c = Call.registerNamespace nm) ∧
      (∀ c ∈ res_calls, ∀ nm, c ≠ Call.registerNamespace nm) ∧
      (∀ nm, Call.registerNamespace nm ∈
          [Call.registerNamespace "ns",
           Call.registerContract sample_contract.dojo_selector "ns" 11] ↔
        ∃ s ∈ sample_migration.diff.namespaces,
          sample_migration.diff.resources.lookup s =
            some (ResourceDiff.created (ResourceLocal.namespaceRes ⟨nm⟩))) :=
  namespaces_registered_first sample_migration
    [Call.registerNamespace "ns",
     Call.registerContract sample_contract.dojo_selector "ns" 11] rfl

/-- C8: any local writer or owner grant naming a grantee selector absent from
the deterministic contract-address map makes `sync_permissions` return the
`OrphanSelectorAddress` error carrying an offending grantee's tag, with an
empty trace — no grant call of the phase is executed. -/
theorem orphan_grantee_aborts (env : Env) (m : Migration)
    (h : (∃ tp ∈ m.profile_config.local_writers, ∃ g ∈ tp.2.grantees,
            m.diff.contract_addresses.lookup g.1 = none) ∨
         (∃ tp ∈ m.profile_config.local_owners, ∃ g ∈ tp.2.grantees,
            m.diff.contract_addresses.lookup g.1 = none)) :
    ∃ tag, m.sync_permissions env =
        ([], some (MigrationError.orphanSelectorAddress tag)) ∧
      ((∃ tp ∈ m.profile_config.local_writers, ∃ g ∈ tp.2.grantees,
          m.diff.contract_addresses.lookup g.1 = none ∧ g.2 = tag) ∨
       (∃ tp ∈ m.profile_config.local_owners, ∃ g ∈ tp.2.grantees,
          m.diff.contract_addresses.lookup g.1 = none ∧ g.2 = tag)) := by
  unfold Migration.sync_permissions
  cases hw : local_grants_calls m.diff.contract_addresses m.diff.remote_writers
      Call.grantWriter m.profile_config.local_writers with
  | error e =>
    obtain ⟨tp, htp, g, hg, hnone, he⟩ := local_grants_error_orphan hw
    subst he
    exact ⟨g.2, rfl, Or.inl ⟨tp, htp, g, hg, hnone, rfl⟩⟩
  | ok wcalls =>
    have hwres := local_grants_ok_resolves hw
    have howner : ∃ tp ∈ m.profile_config.local_owners, ∃ g ∈ tp.2.grantees,
        m.diff.contract_addresses.lookup g.1 = none := by
      cases h with
      | inl hww =>
        obtain ⟨tp, htp, g, hg, hnone⟩ := hww
        have hs := hwres tp htp g hg
        rw [hnone] at hs
        simp at hs
      | inr ho => exact ho
    cases ho : local_grants_calls m.diff.contract_addresses m.diff.remote_owners
        Call.grantOwner m.profile_config.local_owners with
    | error e =>
      obtain ⟨tp, htp, g, hg, hnone, he⟩ := local_grants_error_orphan ho
      subst he
      exact ⟨g.2, rfl, Or.inr ⟨tp, htp, g, hg, hnone, rfl⟩⟩
    | ok ocalls =>
      obtain ⟨tp, htp, g, hg, hnone⟩ := howner
      have hs := local_grants_ok_resolves ho tp htp g hg
      rw [hnone] at hs
      simp at hs

/-- C8 witness: the orphan configuration aborts phase 3 with the ghost tag
and an empty trace. -/
theorem orphan_grantee_aborts_witness :
    ∃ tag, Migration.sync_permissions env_ok m_orphan =
        ([], some (MigrationError.orphanSelectorAddress tag)) ∧
      ((∃ tp ∈ m_orphan.profile_config.local_writers, ∃ g ∈ tp.2.grantees,
          m_orphan.diff.contract_addresses.lookup g.1 = none ∧ g.2 = tag) ∨
       (∃ tp ∈ m_orphan.profile_config.local_owners, ∃ g ∈ tp.2.grantees,
          m_orphan.diff.contract_addresses.lookup g.1 = none ∧ g.2 = tag)) :=
  orphan_grantee_aborts env_ok m_orphan (Or.inl (by decide))

/-- C5: permission reconciliation is monotonic — for every local
(target, grantee) pair with a resolved address, a grant call is emitted if
and only if that address is absent from the remote grant set of the target;
every emitted call is a grant for an address missing remotely (so no grant
already present is proposed), writer grants are batched before owner grants,
and no revocation call is ever executed. -/
theorem sync_permissions_monotone (env : Env) (m : Migration) :
    (∀ wcalls, local_grants_calls m.diff.contract_addresses
        m.diff.remote_writers Call.grantWriter
        m.profile_config.local_writers = Except.ok wcalls →
      (∀ tp ∈ m.profile_config.local_writers, ∀ g ∈ tp.2.grantees, ∀ a,
        m.diff.contract_addresses.lookup g.1 = some a →
        (Call.grantWriter tp.1 a ∈ wcalls ↔
          a ∉ ((m.diff.remote_writers.lookup tp.1).getD []))) ∧
      (∀ c ∈ wcalls, ∃ t a, c = Call.grantWriter t a ∧
        a ∉ ((m.diff.remote_writers.lookup t).getD []))) ∧
    (∀ ocalls, local_grants_calls m.diff.contract_addresses
        m.diff.remote_owners Call.grantOwner
        m.profile_config.local_owners = Except.ok ocalls →
      (∀ tp ∈ m.profile_config.local_owners, ∀ g ∈ tp.2.grantees, ∀ a,
        m.diff.contract_addresses.lookup g.1 = some a →
        (Call.grantOwner tp.1 a ∈ ocalls ↔
          a ∉ ((m.diff.remote_owners.lookup tp.1).getD []))) ∧
      (∀ c ∈ ocalls, ∃ t a, c = Call.grantOwner t a ∧
        a ∉ ((m.diff.remote_owners.lookup t).getD []))) ∧
    (∀ wcalls ocalls,
      local_grants_calls m.diff.contract_addresses m.diff.remote_writers
        Call.grantWriter m.profile_config.local_writers = Except.ok wcalls →
      local_grants_calls m.diff.contract_addresses m.diff.remote_owners
        Call.grantOwner m.profile_config.local_owners = Except.ok ocalls →
      m.sync_permissions env = exec_invoker env m.do_multicall
        (wcalls ++ ocalls)) ∧
    (∀ tr err, m.sync_permissions env = (tr, err) →
      ∀ e ∈ tr, Event.has_revoke e = false) := by
  refine ⟨?_, ?_, ?_, ?_⟩
  · intro wcalls hw
    constructor
    · intro tp htp g hg a ha
      constructor
      · intro hmem
        obtain ⟨t, a2, hc, hnotin⟩ := local_grants_mem hw _ hmem
        simp only [Call.grantWriter.injEq] at hc
        obtain ⟨ht, ha2⟩ := hc
        rw [ht, ha2]
        exact hnotin
      · intro hnotin
        exact local_grants_complete hw tp htp g hg a ha hnotin
    · exact local_grants_mem hw
  · intro ocalls ho
    constructor
    · intro tp htp g hg a ha
      constructor
      · intro hmem
        obtain ⟨t, a2, hc, hnotin⟩ := local_grants_mem ho _ hmem
        simp only [Call.grantOwner.injEq] at hc
        obtain ⟨ht, ha2⟩ := hc
        rw [ht, ha2]
        exact hnotin
      · intro hnotin
        exact local_grants_complete ho tp htp g hg a ha hnotin
    · exact local_grants_mem ho
  · intro wcalls ocalls hw ho
    unfold Migration.sync_permissions
    rw [hw, ho]
  · intro tr err h e he
    have hmem : e ∈ (m.sync_permissions env).1 := by rw [h]; exact he
    obtain ⟨wcalls, ocalls, hw, ho, hmem2⟩ := mem_sync_permissions_trace hmem
    have hbatch : ∀ c ∈ wcalls ++ ocalls, Call.is_revoke c = false := by
      intro c hc
      cases List.mem_append.mp hc with
      | inl hm =>
        obtain ⟨t, a, hce, _⟩ := local_grants_mem hw _ hm
        rw [hce]
        rfl
      | inr hm =>
        obtain ⟨t, a, hce, _⟩ := local_grants_mem ho _ hm
        rw [hce]
        rfl
    rcases mem_exec_invoker hmem2 with he2 | ⟨c, hc, he2⟩
    · rw [he2]
      simp only [Event.has_revoke, List.any_eq_false]
      intro c hc
      simp [hbatch c hc]
    · rw [he2]
      simp only [Event.has_revoke]
      exact hbatch c hc

/-- C5 witness: the sample run batches exactly the one missing writer grant
(and no owner grants) for execution. -/
theorem sync_permissions_monotone_witness :
    Migration.sync_permissions env_ok sample_migration =
      exec_invoker env_ok true [Call.grantWriter 2 42] :=
  (sync_permissions_monotone env_ok sample_migration).2.2.1
    [Call.grantWriter 2 42] [] rfl rfl

/-- C2: the trace of `sync_resources` splits into a declare segment followed
by an execution segment, so every declare operation completes before any
register/upgrade call is executed; in every run in which any call at all was
submitted (the execution segment is nonempty, including a sequential run that
commits a prefix and then fails), every artifact pended by any resource of
the diff has a declare event in the declare segment, and a resource that
emits a register/upgrade call always pends its artifact — so no register or
upgrade call is ever submitted for an artifact not flushed through the
declarer in the same run. -/
theorem sync_resources_declares_before_calls (env : Env) (m : Migration)
    (tr : List Event) (err : Option MigrationError)
    (h : m.sync_resources env = (tr, err)) :
    ∃ dtrace itrace, tr = dtrace ++ itrace ∧
      (∀ e ∈ dtrace, ∃ a b, e = Event.declared a b) ∧
      (∀ e ∈ itrace, (∃ l, e = Event.multicalled l) ∨
        ∃ c, e = Event.invoked c) ∧
      (itrace ≠ [] → ∀ p ∈ m.diff.resources,
        ∀ kv ∈ (resource_getcalls p.2).2,
        ∃ b, Event.declared kv.1 b ∈ dtrace) ∧
      (∀ p ∈ m.diff.resources,
        (resource_getcalls p.2).1 ≠ [] → (resource_getcalls p.2).2 ≠ []) := by
  have hshape : ∀ p ∈ m.diff.resources,
      (resource_getcalls p.2).1 ≠ [] → (resource_getcalls p.2).2 ≠ [] := by
    intro p _ hne
    rcases resource_getcalls_shape p.2 with hs | ⟨c, kv, hs⟩
    · rw [hs] at hne
      simp at hne
    · rw [hs]
      simp
  unfold Migration.sync_resources at h
  cases hb : m.phase2_batch with
  | error e =>
    rw [hb] at h
    simp only [Prod.mk.injEq] at h
    obtain ⟨h1, h2⟩ := h
    subst h1
    subst h2
    refine ⟨[], [], rfl, ?_, ?_, ?_, hshape⟩
    · intro e2 he2
      cases he2
    · intro e2 he2
      cases he2
    · intro hne
      exact absurd rfl hne
  | ok calls =>
    rw [hb] at h
    cases hd : (declarer_declare_all env m.phase2_classes).2 with
    | some e =>
      rw [hd] at h
      simp only [Prod.mk.injEq] at h
      obtain ⟨h1, h2⟩ := h
      subst h1
      subst h2
      refine ⟨(declarer_declare_all env m.phase2_classes).1, [],
        (List.append_nil _).symm, ?_, ?_, ?_, hshape⟩
      · intro e2 he2
        obtain ⟨kv, _, he⟩ := mem_declarer_declare_all he2
        exact ⟨_, _, he⟩
      · intro e2 he2
        cases he2
      · intro hne
        exact absurd rfl hne
    | none =>
      rw [hd] at h
      simp only [Prod.mk.injEq] at h
      obtain ⟨h1, h2⟩ := h
      subst h1
      subst h2
      refine ⟨(declarer_declare_all env m.phase2_classes).1,
        (exec_invoker env m.do_multicall calls).1, rfl, ?_, ?_, ?_, hshape⟩
      · intro e2 he2
        obtain ⟨kv, _, he⟩ := mem_declarer_declare_all he2
        exact ⟨_, _, he⟩
      · intro e2 he2
        rcases mem_exec_invoker he2 with he | ⟨c, _, he⟩
        · exact Or.inl ⟨_, he⟩
        · exact Or.inr ⟨c, he⟩
      · intro _ p hp kv hkv
        have hisSome : ((m.phase2_classes).lookup kv.1).isSome := by
          have heq : m.phase2_classes =
              (collect_go m.diff.resources ([], [])).2 := rfl
          rw [heq]
          exact collect_go_snd_of_mem hp hkv
        obtain ⟨b, hbv⟩ := Option.isSome_iff_exists.mp hisSome
        exact ⟨b, declarer_declare_all_complete hd (kv.1, b)
          (lookup_mem_pair hbv)⟩

/-- C2 witness: the sample run's phase 2 declares the contract artifact and
only then executes the batched multicall. -/
theorem sync_resources_declares_before_calls_witness :
    ∃ dtrace itrace,
      [Event.declared 12 13,
       Event.multicalled [Call.registerNamespace "ns",
         Call.registerContract sample_contract.dojo_selector "ns" 11]] =
        dtrace ++ itrace ∧
      (∀ e ∈ dtrace, ∃ a b, e = Event.declared a b) ∧
      (∀ e ∈ itrace, (∃ l, e = Event.multicalled l) ∨
        ∃ c, e = Event.invoked c) ∧
      (itrace ≠ [] →
        ∀ p ∈ sample_migration.diff.resources,
        ∀ kv ∈ (resource_getcalls p.2).2,
        ∃ b, Event.declared kv.1 b ∈ dtrace) ∧
      (∀ p ∈ sample_migration.diff.resources,
        (resource_getcalls p.2).1 ≠ [] → (resource_getcalls p.2).2 ≠ []) :=
  sync_resources_declares_before_calls env_ok sample_migration
    [Event.declared 12 13,
     Event.multicalled [Call.registerNamespace "ns",
       Call.registerContract sample_contract.dojo_selector "ns" 11]]
    none rfl
